import Mathlib

/-!
Verification of the change-detection and notification pipeline of `bot.py`.

The program polls a spreadsheet, diffs each snapshot against a durable
fingerprint store (`orders` table), stages detected changes in a debounced
pending queue (`pending` table), and fans eligible entries out to a set of
subscribers.

Modelling conventions:
* SQLite tables keyed by `row_index INTEGER PRIMARY KEY` are association
  lists `List (Nat × α)` with at most one binding per key; `kvUpsert`
  models `INSERT OR REPLACE` / `UPDATE`, `kvLookup` models a keyed
  `SELECT`, `kvErase` models a keyed `DELETE`.
* A spreadsheet cell is `Option String` (`none` is Python's `None`,
  matched by `x or ""` in `make_line`); Python truthiness of a cell is
  `cellTruthy`.
* `make_hash` (SHA-256 hex digest, used by the code only as an equality
  oracle on normalized lines) is an abstract parameter `make_hash :
  String → String`; theorems that need collision freedom assume it
  injective, as the spec directs (collision probability treated as zero).
* Timestamps (`time.time()`, `strftime`) are integers; one detection pass
  samples a single time `now`.
* Python sqlite3 runs the per-row INSERT/UPDATE statements inside an
  implicit transaction that becomes durable only at `conn.commit()`
  (line 258 of the source, after the whole row loop); `poll_cycle`
  models an exception mid-pass as discarding the uncommitted draft.
-/

namespace Bot

/-- Column cap applied by `make_line` (`MAX_COLS = 25`). -/
def MAX_COLS : Nat := 25

/-- Message length cap applied by `send_safe` (`MAX_MESSAGE_LENGTH = 4000`). -/
def MAX_MESSAGE_LENGTH : Nat := 4000

/-- A raw spreadsheet row: ordered cells, `none` modelling `null`. -/
abbrev Row := List (Option String)

/-- Python truthiness of a cell: `None` and `""` are falsy. -/
def cellTruthy : Option String → Bool
  | none => false
  | some s => s ≠ ""

/-- Python `any(row)`: true when some cell is truthy. -/
def rowAny (row : Row) : Bool :=
  row.any cellTruthy

/-- Python `str.strip()`: drop leading and trailing whitespace. -/
def pyStrip (s : String) : String :=
  ⟨((s.data.dropWhile Char.isWhitespace).reverse.dropWhile Char.isWhitespace).reverse⟩

/-- The loop body of `make_line`: append the stripped cell when non-empty. -/
def make_line_step (parts : List String) (x : Option String) : List String :=
  let s := pyStrip (x.getD "")
  if s ≠ "" then parts ++ [s] else parts

/-- Translation of `make_line`: strip each of the first `MAX_COLS` cells,
keep the non-empty ones, join with `" | "`. -/
def make_line (row : Row) : String :=
  let parts := (row.take MAX_COLS).foldl make_line_step []
  String.intercalate " | " parts

/-- Record of the `orders` table: fingerprint, normalized line, timestamp. -/
structure OrderRec where
  hash : String
  line : String
  updated_at : Int
  deriving Repr, DecidableEq

/-- Record of the `pending` table: fingerprint, line, first-seen time,
new-vs-updated flag. -/
structure PendingRec where
  hash : String
  line : String
  ts : Int
  is_new : Bool
  deriving Repr, DecidableEq

/-- Keyed lookup in an association list (`SELECT ... WHERE row_index = k`). -/
def kvLookup {α : Type} (k : Nat) : List (Nat × α) → Option α
  | [] => none
  | (k', v) :: t => if k = k' then some v else kvLookup k t

/-- Keyed insert-or-replace (`INSERT OR REPLACE` / keyed `UPDATE`):
replace the binding in place when the key exists, append otherwise. -/
def kvUpsert {α : Type} (k : Nat) (v : α) : List (Nat × α) → List (Nat × α)
  | [] => [(k, v)]
  | (k', v') :: t => if k = k' then (k, v) :: t else (k', v') :: kvUpsert k v t

/-- Keyed delete (`DELETE ... WHERE row_index = k`). -/
def kvErase {α : Type} (k : Nat) (l : List (Nat × α)) : List (Nat × α) :=
  l.filter fun p => p.1 ≠ k

/-- State of the orders database: the `orders` and `pending` tables. -/
structure OrdersDB where
  orders : List (Nat × OrderRec)
  pending : List (Nat × PendingRec)
  deriving Repr, DecidableEq

/-- The empty orders database (a fresh `orders.db`). -/
def OrdersDB.empty : OrdersDB := ⟨[], []⟩

/-- Body of the detection loop of `poll_loop` for one enumerated row
`(idx, row)`: skip blank rows, then compare the fingerprint with the
stored one and update `orders`/`pending` accordingly. -/
def detectRow (make_hash : String → String) (first_run : Bool) (now : Int)
    (idx : Nat) (row : Row) (st : OrdersDB) : OrdersDB :=
  if !rowAny row then st
  else
    let line := make_line row
    if line = "" then st
    else
      let h := make_hash line
      match kvLookup idx st.orders with
      | none =>
        let st1 : OrdersDB := { st with orders := kvUpsert idx ⟨h, line, now⟩ st.orders }
        if !first_run then
          { st1 with pending := kvUpsert idx ⟨h, line, now, true⟩ st1.pending }
        else st1
      | some r =>
        if r.hash ≠ h then
          { orders := kvUpsert idx ⟨h, line, now⟩ st.orders,
            pending := kvUpsert idx ⟨h, line, now, false⟩ st.pending }
        else st

/-- Detection over the rows enumerated from index `i`
(`enumerate(rows, start=1)` starts at `i = 1`). -/
def detectRows (make_hash : String → String) (first_run : Bool) (now : Int) :
    Nat → List Row → OrdersDB → OrdersDB
  | _, [], st => st
  | i, row :: rest, st =>
      detectRows make_hash first_run now (i + 1) rest
        (detectRow make_hash first_run now i row st)

/-- One full detection pass of `poll_loop` over a snapshot. -/
def detectPass (make_hash : String → String) (first_run : Bool) (now : Int)
    (rows : List Row) (st : OrdersDB) : OrdersDB :=
  detectRows make_hash first_run now 1 rows st

/-- Outcome of one `bot.send_message` attempt: success, a
`TelegramRetryAfter` signal carrying the wait time, or any other
exception (permanent failure for this attempt). -/
inductive Outcome where
  | ok : Outcome
  | retryAfter : Int → Outcome
  | err : Outcome
  deriving Repr, DecidableEq

/-- Whether an outcome is a rate-limit signal. -/
def Outcome.isRetry : Outcome → Bool
  | .retryAfter _ => true
  | _ => false

/-- Observable event of a dispatch pass: a send attempt with its outcome,
a rate-limit sleep, or a `DELETE` of a pending entry. -/
inductive Event where
  | attempt : Int → String → Outcome → Event
  | slept : Int → Event
  | deleted : Nat → Event
  deriving Repr, DecidableEq

/-- Truncation applied by `send_safe` before sending. -/
def truncMsg (text : String) : String :=
  if text.length > MAX_MESSAGE_LENGTH then text.take MAX_MESSAGE_LENGTH else text

/-- Translation of `send_safe`: truncate, attempt the send; on a
`TelegramRetryAfter` signal sleep for the signalled time and retry the
same message; any other exception is logged and swallowed. The transport
is modelled as the stream of outcomes successive attempts of this call
receive (the Python recursion terminates exactly when rate limiting
stops, i.e. when the stream reaches a non-retry outcome). -/
def send_safe (chat : Int) (text : String) : List Outcome → List Event
  | [] => []
  | o :: rest =>
    match o with
    | .retryAfter t =>
        .attempt chat (truncMsg text) (.retryAfter t) :: .slept t ::
          send_safe chat text rest
    | .ok => [.attempt chat (truncMsg text) .ok]
    | .err => [.attempt chat (truncMsg text) .err]

/-- Message formatted by `notify_subscribers` for a pending entry. -/
def msgFor (p : PendingRec) : String :=
  if p.is_new then "🆕 Новый заказ:\n" ++ p.line
  else "♻ Обновлён заказ:\n" ++ p.line

/-- Fan-out of one eligible pending entry: send its message to every
subscriber in order, then delete the entry. `tr` assigns to each
(row index, chat) pair the outcome stream its `send_safe` call sees. -/
def processEntry (tr : Nat → Int → List Outcome) (subs : List Int)
    (p : Nat × PendingRec) : List Event :=
  (subs.map fun chat => send_safe chat (msgFor p.2) (tr p.1 chat)).flatten
    ++ [.deleted p.1]

/-- Eligibility test of the dispatcher's `SELECT`: the entry's first-seen
time is at most `now - NOTIFY_DELAY`. -/
def eligible (now delay : Int) (p : Nat × PendingRec) : Bool :=
  p.2.ts ≤ now - delay

/-- Translation of `notify_subscribers`: select the pending entries whose
debounce window has elapsed, read the subscriber snapshot (`subs`), and
for each selected entry send to every subscriber then delete it.
Returns the new database and the trace of events. -/
def notify_subscribers (tr : Nat → Int → List Outcome) (subs : List Int)
    (now delay : Int) (st : OrdersDB) : OrdersDB × List Event :=
  let elig := st.pending.filter (eligible now delay)
  ({ st with pending := st.pending.filter fun p => !eligible now delay p },
   (elig.map (processEntry tr subs)).flatten)

/-- One iteration of the `while True` scheduler loop of `poll_loop`.

`fetch` is the snapshot pull: `none` models `SourceUnavailable` (the
`get_all_values` call raising). `failAt = some k` models an unexpected
exception raised while processing the snapshot row at 1-based position
`k`: rows before `k` have been written only to the connection's
uncommitted transaction, and since the exception jumps over
`conn.commit()`, that draft is rolled back. In every exceptional case the
`except` clause catches, and `FIRST_RUN` is cleared unconditionally after
the `try`/`except` block. Returns (new `FIRST_RUN` flag, committed
database, dispatch events). -/
def poll_cycle (make_hash : String → String) (first_run : Bool) (now delay : Int)
    (tr : Nat → Int → List Outcome) (subs : List Int) (db : OrdersDB)
    (fetch : Option (List Row)) (failAt : Option Nat) :
    Bool × OrdersDB × List Event :=
  match fetch with
  | none => (false, db, [])
  | some rows =>
    match failAt with
    | some k =>
        let draft := detectRows make_hash first_run now 1
          ((rows.take (k - 1))) db
        let _ := draft
        (false, db, [])
    | none =>
        let db1 := detectPass make_hash first_run now rows db
        let (db2, evs) := notify_subscribers tr subs now delay db1
        (false, db2, evs)

/-! ### Association-list lemmas -/

theorem kvLookup_upsert_self {α : Type} (k : Nat) (v : α) (l : List (Nat × α)) :
    kvLookup k (kvUpsert k v l) = some v := by
  induction l with
  | nil => simp [kvUpsert, kvLookup]
  | cons p t ih =>
    by_cases h : k = p.1
    · simp [kvUpsert, kvLookup, h]
    · simp [kvUpsert, kvLookup, h, ih]

theorem kvLookup_upsert_ne {α : Type} {j k : Nat} (h : j ≠ k) (v : α)
    (l : List (Nat × α)) : kvLookup j (kvUpsert k v l) = kvLookup j l := by
  induction l with
  | nil => simp [kvUpsert, kvLookup, h]
  | cons p t ih =>
    by_cases hk : k = p.1
    · subst hk; simp [kvUpsert, kvLookup, h, ih]
    · by_cases hj : j = p.1
      · simp [kvUpsert, kvLookup, hk, hj]
      · simp [kvUpsert, kvLookup, hk, hj, ih]

theorem kvLookup_eq_none {α : Type} {k : Nat} {l : List (Nat × α)}
    (h : ∀ p ∈ l, p.1 ≠ k) : kvLookup k l = none := by
  induction l with
  | nil => rfl
  | cons p t ih =>
    obtain ⟨a, b⟩ := p
    have h1 : k ≠ a := fun hk => h (a, b) (by simp) hk.symm
    simp only [kvLookup, if_neg h1]
    exact ih fun q hq => h q (List.mem_cons_of_mem _ hq)

theorem kvUpsert_of_not_mem {α : Type} {k : Nat} {l : List (Nat × α)} (v : α)
    (h : ∀ p ∈ l, p.1 ≠ k) : kvUpsert k v l = l ++ [(k, v)] := by
  induction l with
  | nil => rfl
  | cons p t ih =>
    obtain ⟨a, b⟩ := p
    have h1 : k ≠ a := fun hk => h (a, b) (by simp) hk.symm
    simp only [kvUpsert, if_neg h1, List.cons_append, List.cons.injEq, true_and]
    exact ih fun q hq => h q (List.mem_cons_of_mem _ hq)

theorem kvLookup_of_mem_nodup {α : Type} {k : Nat} {v : α} {l : List (Nat × α)}
    (hnd : (l.map Prod.fst).Nodup) (hm : (k, v) ∈ l) : kvLookup k l = some v := by
  induction l with
  | nil => cases hm
  | cons p t ih =>
    obtain ⟨a, b⟩ := p
    rw [List.map_cons] at hnd
    have hnd' := List.nodup_cons.mp hnd
    rcases List.mem_cons.mp hm with h | h
    · injection h with h1 h2
      subst h1; subst h2
      simp [kvLookup]
    · have hk : k ≠ a := by
        intro hkp
        exact hnd'.1 (List.mem_map.mpr ⟨(k, v), h, by simp [hkp]⟩)
      simp only [kvLookup, if_neg hk]
      exact ih hnd'.2 h

theorem kvLookup_filter_eq_none {α : Type} {k : Nat} {v : α} {l : List (Nat × α)}
    {f : Nat × α → Bool} (hnd : (l.map Prod.fst).Nodup) (hm : (k, v) ∈ l)
    (hf : f (k, v) = false) : kvLookup k (l.filter f) = none := by
  induction l with
  | nil => cases hm
  | cons p t ih =>
    obtain ⟨a, b⟩ := p
    rw [List.map_cons] at hnd
    have hnd' := List.nodup_cons.mp hnd
    rcases List.mem_cons.mp hm with h | h
    · injection h with h1 h2
      subst h1; subst h2
      rw [List.filter_cons, if_neg (by simp [hf])]
      exact kvLookup_eq_none fun q hq hqk =>
        hnd'.1 (List.mem_map.mpr ⟨q, (List.mem_filter.mp hq).1, hqk⟩)
    · have hk : k ≠ a := by
        intro hkp
        exact hnd'.1 (List.mem_map.mpr ⟨(k, v), h, by simp [hkp]⟩)
      rcases hfp : f (a, b) with _ | _
      · rw [List.filter_cons, if_neg (by simp [hfp])]
        exact ih hnd'.2 h
      · rw [List.filter_cons, if_pos hfp]
        simp only [kvLookup, if_neg hk]
        exact ih hnd'.2 h

/-! ### Normalization lemmas -/

theorem make_line_step_acc (acc : List String) (l : List (Option String)) :
    l.foldl make_line_step acc =
      acc ++ (l.map fun x => pyStrip (x.getD "")).filter (fun s => s ≠ "") := by
  induction l generalizing acc with
  | nil => simp
  | cons x t ih =>
    by_cases h : pyStrip (x.getD "") = ""
    · simp [make_line_step, h, ih]
    · simp [make_line_step, h, ih]

theorem rowAny_false_make_line {row : Row} (h : rowAny row = false) :
    make_line row = "" := by
  have hall : ∀ x ∈ row, cellTruthy x = false := by
    simpa [rowAny, List.any_eq_false] using h
  have hcell : ∀ x ∈ row.take MAX_COLS, pyStrip (x.getD "") = "" := by
    intro x hx
    have hx' := hall x (List.take_subset _ _ hx)
    match x with
    | none => rfl
    | some s =>
      have hs : s = "" := by simpa [cellTruthy] using hx'
      subst hs; rfl
  have hfil : ((row.take MAX_COLS).map fun x => pyStrip (x.getD "")).filter
      (fun s => decide (s ≠ "")) = [] := by
    refine List.filter_eq_nil_iff.mpr fun s hs => ?_
    rcases List.mem_map.mp hs with ⟨x, hx, rfl⟩
    simp [hcell x hx]
  rw [make_line, make_line_step_acc, List.nil_append, hfil]
  rfl

theorem rowAny_of_make_line {row : Row} (h : make_line row ≠ "") :
    rowAny row = true := by
  rcases hc : rowAny row with _ | _
  · exact absurd (rowAny_false_make_line hc) h
  · rfl

/-! ### Enumeration of a snapshot, as `enumerate(rows, start=m)` does -/

/-- Rows paired with their 1-based positions, starting at `m`. -/
def enumFrom {α : Type} : Nat → List α → List (Nat × α)
  | _, [] => []
  | m, a :: t => (m, a) :: enumFrom (m + 1) t

theorem enumFrom_append {α : Type} (m : Nat) (l1 l2 : List α) :
    enumFrom m (l1 ++ l2) = enumFrom m l1 ++ enumFrom (m + l1.length) l2 := by
  induction l1 generalizing m with
  | nil => simp [enumFrom]
  | cons a t ih =>
    show (m, a) :: enumFrom (m + 1) (t ++ l2) = _
    rw [ih (m + 1)]
    simp only [enumFrom, List.cons_append, List.length_cons]
    rw [show m + (t.length + 1) = m + 1 + t.length by omega]

theorem mem_enumFrom_ge {α : Type} {m i : Nat} {a : α} {l : List α}
    (h : (i, a) ∈ enumFrom m l) : m ≤ i := by
  induction l generalizing m with
  | nil => cases h
  | cons b t ih =>
    rcases List.mem_cons.mp h with h1 | h1
    · injection h1 with h2 _; omega
    · have := ih h1; omega

theorem mem_enumFrom_of_mem {α : Type} {m i : Nat} {a : α} {l : List α}
    (h : (i, a) ∈ enumFrom m l) : a ∈ l := by
  induction l generalizing m with
  | nil => cases h
  | cons b t ih =>
    rcases List.mem_cons.mp h with h1 | h1
    · injection h1 with _ h2
      exact h2 ▸ List.mem_cons_self _ _
    · exact List.mem_cons_of_mem _ (ih h1)

/-! ### Branch lemmas for one detection step -/

theorem detectRow_eq_self_of_line_empty (make_hash : String → String)
    (first_run : Bool) (now : Int) (idx : Nat) {row : Row} (st : OrdersDB)
    (h : make_line row = "") :
    detectRow make_hash first_run now idx row st = st := by
  rcases ha : rowAny row with _ | _
  · simp [detectRow, ha]
  · simp [detectRow, ha, h]

theorem detectRow_eq_self_of_hash_eq (make_hash : String → String)
    (first_run : Bool) (now : Int) (idx : Nat) {row : Row} {st : OrdersDB} {r : OrderRec}
    (hl : kvLookup idx st.orders = some r) (hh : r.hash = make_hash (make_line row)) :
    detectRow make_hash first_run now idx row st = st := by
  by_cases h : make_line row = ""
  · exact detectRow_eq_self_of_line_empty make_hash first_run now idx st h
  · simp [detectRow, rowAny_of_make_line h, h, hl, hh]

theorem detectRow_new_quiet (make_hash : String → String) (now : Int)
    (idx : Nat) {row : Row} {st : OrdersDB}
    (h : make_line row ≠ "") (hl : kvLookup idx st.orders = none) :
    detectRow make_hash true now idx row st =
      { orders := kvUpsert idx ⟨make_hash (make_line row), make_line row, now⟩ st.orders,
        pending := st.pending } := by
  simp [detectRow, rowAny_of_make_line h, h, hl]

theorem detectRow_new_live (make_hash : String → String) (now : Int)
    (idx : Nat) {row : Row} {st : OrdersDB}
    (h : make_line row ≠ "") (hl : kvLookup idx st.orders = none) :
    detectRow make_hash false now idx row st =
      { orders := kvUpsert idx ⟨make_hash (make_line row), make_line row, now⟩ st.orders,
        pending := kvUpsert idx ⟨make_hash (make_line row), make_line row, now, true⟩
          st.pending } := by
  simp [detectRow, rowAny_of_make_line h, h, hl]

theorem detectRow_changed (make_hash : String → String) (first_run : Bool) (now : Int)
    (idx : Nat) {row : Row} {st : OrdersDB} {r : OrderRec}
    (h : make_line row ≠ "") (hl : kvLookup idx st.orders = some r)
    (hh : r.hash ≠ make_hash (make_line row)) :
    detectRow make_hash first_run now idx row st =
      { orders := kvUpsert idx ⟨make_hash (make_line row), make_line row, now⟩ st.orders,
        pending := kvUpsert idx ⟨make_hash (make_line row), make_line row, now, false⟩
          st.pending } := by
  simp [detectRow, rowAny_of_make_line h, h, hl, hh]

theorem detectRow_orders_lookup_ne (make_hash : String → String) (first_run : Bool)
    (now : Int) (idx : Nat) (row : Row) (st : OrdersDB) {j : Nat} (hj : j ≠ idx) :
    kvLookup j (detectRow make_hash first_run now idx row st).orders =
      kvLookup j st.orders := by
  by_cases h : make_line row = ""
  · rw [detectRow_eq_self_of_line_empty make_hash first_run now idx st h]
  · rcases hl : kvLookup idx st.orders with _ | r
    · rcases first_run with _ | _
      · rw [detectRow_new_live make_hash now idx h hl]
        exact kvLookup_upsert_ne hj _ _
      · rw [detectRow_new_quiet make_hash now idx h hl]
        exact kvLookup_upsert_ne hj _ _
    · by_cases hh : r.hash = make_hash (make_line row)
      · rw [detectRow_eq_self_of_hash_eq make_hash first_run now idx hl hh]
      · rw [detectRow_changed make_hash first_run now idx h hl hh]
        exact kvLookup_upsert_ne hj _ _

theorem detectRow_pending_lookup_ne (make_hash : String → String) (first_run : Bool)
    (now : Int) (idx : Nat) (row : Row) (st : OrdersDB) {j : Nat} (hj : j ≠ idx) :
    kvLookup j (detectRow make_hash first_run now idx row st).pending =
      kvLookup j st.pending := by
  by_cases h : make_line row = ""
  · rw [detectRow_eq_self_of_line_empty make_hash first_run now idx st h]
  · rcases hl : kvLookup idx st.orders with _ | r
    · rcases first_run with _ | _
      · rw [detectRow_new_live make_hash now idx h hl]
        exact kvLookup_upsert_ne hj _ _
      · rw [detectRow_new_quiet make_hash now idx h hl]
    · by_cases hh : r.hash = make_hash (make_line row)
      · rw [detectRow_eq_self_of_hash_eq make_hash first_run now idx hl hh]
      · rw [detectRow_changed make_hash first_run now idx h hl hh]
        exact kvLookup_upsert_ne hj _ _

theorem detectRow_orders_lookup_self (make_hash : String → String) (first_run : Bool)
    (now : Int) (idx : Nat) {row : Row} (st : OrdersDB) (h : make_line row ≠ "") :
    (kvLookup idx (detectRow make_hash first_run now idx row st).orders).map
      OrderRec.hash = some (make_hash (make_line row)) := by
  rcases hl : kvLookup idx st.orders with _ | r
  · rcases first_run with _ | _
    · rw [detectRow_new_live make_hash now idx h hl]
      simp [kvLookup_upsert_self]
    · rw [detectRow_new_quiet make_hash now idx h hl]
      simp [kvLookup_upsert_self]
  · by_cases hh : r.hash = make_hash (make_line row)
    · rw [detectRow_eq_self_of_hash_eq make_hash first_run now idx hl hh]
      simp [hl, hh]
    · rw [detectRow_changed make_hash first_run now idx h hl hh]
      simp [kvLookup_upsert_self]

/-! ### Lemmas about a detection pass -/

theorem detectRows_append (make_hash : String → String) (first_run : Bool) (now : Int)
    (m : Nat) (l1 l2 : List Row) (st : OrdersDB) :
    detectRows make_hash first_run now m (l1 ++ l2) st =
      detectRows make_hash first_run now (m + l1.length) l2
        (detectRows make_hash first_run now m l1 st) := by
  induction l1 generalizing m st with
  | nil => simp [detectRows]
  | cons a t ih =>
    show detectRows _ _ _ (m + 1) (t ++ l2) _ = _
    rw [ih (m + 1), List.length_cons, show m + (t.length + 1) = m + 1 + t.length by omega]
    rfl

theorem detectRows_id (make_hash : String → String) (first_run : Bool) (now : Int)
    {m : Nat} {rows : List Row} {st : OrdersDB}
    (h : ∀ pr ∈ enumFrom m rows, detectRow make_hash first_run now pr.1 pr.2 st = st) :
    detectRows make_hash first_run now m rows st = st := by
  induction rows generalizing m with
  | nil => rfl
  | cons a t ih =>
    show detectRows _ _ _ (m + 1) t (detectRow _ _ _ m a st) = st
    rw [h (m, a) (by simp [enumFrom])]
    exact ih fun pr hpr => h pr (List.mem_cons_of_mem _ hpr)

theorem detectRows_orders_lookup_lt (make_hash : String → String) (first_run : Bool)
    (now : Int) {m j : Nat} (rows : List Row) (st : OrdersDB) (hj : j < m) :
    kvLookup j (detectRows make_hash first_run now m rows st).orders =
      kvLookup j st.orders := by
  induction rows generalizing m st with
  | nil => rfl
  | cons a t ih =>
    show kvLookup j (detectRows _ _ _ (m + 1) t (detectRow _ _ _ m a st)).orders = _
    rw [ih _ (by omega),
      detectRow_orders_lookup_ne make_hash first_run now m a st (by omega)]

theorem detectRows_pending_lookup_lt (make_hash : String → String) (first_run : Bool)
    (now : Int) {m j : Nat} (rows : List Row) (st : OrdersDB) (hj : j < m) :
    kvLookup j (detectRows make_hash first_run now m rows st).pending =
      kvLookup j st.pending := by
  induction rows generalizing m st with
  | nil => rfl
  | cons a t ih =>
    show kvLookup j (detectRows _ _ _ (m + 1) t (detectRow _ _ _ m a st)).pending = _
    rw [ih _ (by omega),
      detectRow_pending_lookup_ne make_hash first_run now m a st (by omega)]

theorem detectRows_lookup_hash (make_hash : String → String) (first_run : Bool)
    (now : Int) {m : Nat} {rows : List Row} {st : OrdersDB} :
    ∀ pr ∈ enumFrom m rows, make_line pr.2 ≠ "" →
      (kvLookup pr.1 (detectRows make_hash first_run now m rows st).orders).map
        OrderRec.hash = some (make_hash (make_line pr.2)) := by
  induction rows generalizing m st with
  | nil => intro pr hpr; cases hpr
  | cons a t ih =>
    intro pr hpr hline
    rcases List.mem_cons.mp hpr with h1 | h1
    · subst h1
      show (kvLookup m (detectRows _ _ _ (m + 1) t (detectRow _ _ _ m a st)).orders).map
        OrderRec.hash = _
      rw [detectRows_orders_lookup_lt make_hash first_run now t _ (by omega)]
      exact detectRow_orders_lookup_self make_hash first_run now m st hline
    · exact ih pr h1 hline

/-- Records created by a quiet-start pass that only sees fresh non-empty rows,
at positions starting from `m`. -/
def seedOrders (make_hash : String → String) (now : Int) :
    Nat → List Row → List (Nat × OrderRec)
  | _, [] => []
  | m, row :: t =>
      (m, ⟨make_hash (make_line row), make_line row, now⟩) ::
        seedOrders make_hash now (m + 1) t

theorem seedOrders_length (make_hash : String → String) (now : Int) (m : Nat)
    (rows : List Row) : (seedOrders make_hash now m rows).length = rows.length := by
  induction rows generalizing m with
  | nil => rfl
  | cons a t ih => simp [seedOrders, ih]

theorem kvLookup_seedOrders (make_hash : String → String) (now : Int)
    {m i : Nat} {row : Row} {rows : List Row}
    (h : (i, row) ∈ enumFrom m rows) :
    kvLookup i (seedOrders make_hash now m rows) =
      some ⟨make_hash (make_line row), make_line row, now⟩ := by
  induction rows generalizing m with
  | nil => cases h
  | cons a t ih =>
    rcases List.mem_cons.mp h with h1 | h1
    · injection h1 with h2 h3
      subst h2; subst h3
      simp [seedOrders, kvLookup]
    · have hge := mem_enumFrom_ge h1
      have : i ≠ m := by omega
      simp only [seedOrders, kvLookup, if_neg this]
      exact ih h1

theorem detectRows_seed (make_hash : String → String) (now : Int)
    {m : Nat} {rows : List Row} {st : OrdersDB}
    (hkeys : ∀ p ∈ st.orders, p.1 < m)
    (hlines : ∀ row ∈ rows, make_line row ≠ "") :
    detectRows make_hash true now m rows st =
      ⟨st.orders ++ seedOrders make_hash now m rows, st.pending⟩ := by
  induction rows generalizing m st with
  | nil => simp [detectRows, seedOrders]
  | cons a t ih =>
    have hline : make_line a ≠ "" := hlines a (by simp)
    have hnone : kvLookup m st.orders = none :=
      kvLookup_eq_none fun p hp => by have := hkeys p hp; omega
    show detectRows _ _ _ (m + 1) t (detectRow _ _ _ m a st) = _
    rw [detectRow_new_quiet make_hash now m hline hnone]
    rw [kvUpsert_of_not_mem _ fun p hp => by have := hkeys p hp; omega]
    rw [@ih
      (m + 1)
      { orders := st.orders ++ [(m, OrderRec.mk (make_hash (make_line a)) (make_line a) now)], pending := st.pending }
      (fun p hp => by
        rcases List.mem_append.mp hp with h1 | h1
        · have := hkeys p h1; omega
        · rw [List.mem_singleton] at h1
          subst h1
          exact Nat.lt_succ_self m)
      (fun row hrow => hlines row (List.mem_cons_of_mem _ hrow))]
    simp [seedOrders]

/-! ### Claim theorems -/

/-- C3. Detection is idempotent: a state produced by completing a detection
pass over a snapshot `S` is a fixed point of any further detection pass over
the identical snapshot — no RowRecord (hash, line, updatedAt) changes and no
PendingEntry is inserted or replaced the second time. -/
theorem detection_idempotent (make_hash : String → String)
    (fr : Bool) (now : Int) (fr2 : Bool) (now2 : Int) (S : List Row) (st : OrdersDB) :
    detectPass make_hash fr2 now2 S (detectPass make_hash fr now S st) =
      detectPass make_hash fr now S st := by
  apply detectRows_id
  intro pr hpr
  obtain ⟨i, row⟩ := pr
  by_cases h : make_line row = ""
  · exact detectRow_eq_self_of_line_empty make_hash fr2 now2 i _ h
  · have hh := @detectRows_lookup_hash make_hash fr now 1 S st
      (i, row) hpr h
    rcases hlook : kvLookup i (detectPass make_hash fr now S st).orders with _ | r
    · rw [detectPass] at hlook
      rw [hlook] at hh
      cases hh
    · rw [detectPass] at hlook
      rw [hlook] at hh
      have : r.hash = make_hash (make_line row) := by
        simpa using hh
      exact detectRow_eq_self_of_hash_eq make_hash fr2 now2 i hlook this

/-- C1. Quiet-start suppression: from an empty store, a quiet-start pass over
a snapshot of `N` non-empty rows (written `P ++ s :: Q`, `N = (P ++ s :: Q).length`)
creates exactly `N` RowRecords and zero PendingEntries; a subsequent pass with
quiet-start cleared over the same snapshot with exactly the row at position
`P.length + 1` changed (`s` replaced by `s'`) leaves exactly one PendingEntry,
keyed by that position. -/
theorem quiet_start_suppression (make_hash : String → String)
    (hinj : Function.Injective make_hash)
    (P Q : List Row) (s s' : Row) (now now2 : Int)
    (hlines : ∀ row ∈ P ++ s :: Q, make_line row ≠ "")
    (hs' : make_line s' ≠ "")
    (hne : make_line s ≠ make_line s') :
    ((detectPass make_hash true now (P ++ s :: Q) OrdersDB.empty).orders.length
        = (P ++ s :: Q).length ∧
      (detectPass make_hash true now (P ++ s :: Q) OrdersDB.empty).pending = []) ∧
    (detectPass make_hash false now2 (P ++ s' :: Q)
        (detectPass make_hash true now (P ++ s :: Q) OrdersDB.empty)).pending =
      [(P.length + 1,
        ⟨make_hash (make_line s'), make_line s', now2, false⟩)] := by
  have hseed : detectPass make_hash true now (P ++ s :: Q) OrdersDB.empty =
      ⟨seedOrders make_hash now 1 (P ++ s :: Q), []⟩ := by
    rw [detectPass, detectRows_seed make_hash now (by intro p hp; cases hp) hlines]
    rfl
  have henum : enumFrom 1 (P ++ s :: Q) =
      enumFrom 1 P ++ (1 + P.length, s) :: enumFrom (1 + P.length + 1) Q := by
    rw [enumFrom_append]
    rfl
  -- a row of the seeded store whose line is unchanged is a no-op
  have hstep : ∀ (fr2 : Bool) (n2 : Int) (st : OrdersDB) (i : Nat) (row : Row),
      make_line row ≠ "" →
      kvLookup i st.orders = some ⟨make_hash (make_line row), make_line row, now⟩ →
      detectRow make_hash fr2 n2 i row st = st := by
    intro fr2 n2 st i row hrow hl
    exact detectRow_eq_self_of_hash_eq make_hash fr2 n2 i hl rfl
  constructor
  · constructor
    · rw [hseed]
      simpa using seedOrders_length make_hash now 1 (P ++ s :: Q)
    · rw [hseed]
  · rw [detectPass, hseed, detectRows_append]
    have hA : detectRows make_hash false now2 1 P
        ⟨seedOrders make_hash now 1 (P ++ s :: Q), []⟩ =
        ⟨seedOrders make_hash now 1 (P ++ s :: Q), []⟩ := by
      apply detectRows_id
      intro pr hpr
      obtain ⟨i, row⟩ := pr
      have hmem : (i, row) ∈ enumFrom 1 (P ++ s :: Q) := by
        rw [henum]; exact List.mem_append_left _ hpr
      exact hstep false now2 _ i row
        (hlines row (by
          have := mem_enumFrom_of_mem hmem
          exact this))
        (kvLookup_seedOrders make_hash now hmem)
    rw [hA]
    show (detectRows make_hash false now2 (1 + P.length + 1) Q
      (detectRow make_hash false now2 (1 + P.length) s'
        ⟨seedOrders make_hash now 1 (P ++ s :: Q), []⟩)).pending = _
    have hs_mem : ((1 + P.length : Nat), s) ∈ enumFrom 1 (P ++ s :: Q) := by
      rw [henum]
      exact List.mem_append_right _ (List.mem_cons_self _ _)
    have hlookS : kvLookup (1 + P.length)
        (seedOrders make_hash now 1 (P ++ s :: Q)) =
        some ⟨make_hash (make_line s), make_line s, now⟩ :=
      kvLookup_seedOrders make_hash now hs_mem
    have hhne : (OrderRec.mk (make_hash (make_line s)) (make_line s) now).hash ≠
        make_hash (make_line s') := by
      intro heq
      exact hne (hinj heq)
    rw [detectRow_changed make_hash false now2 (1 + P.length) hs' hlookS hhne]
    have hB : detectRows make_hash false now2 (1 + P.length + 1) Q
        ⟨kvUpsert (1 + P.length)
            ⟨make_hash (make_line s'), make_line s', now2⟩
            (seedOrders make_hash now 1 (P ++ s :: Q)),
          kvUpsert (1 + P.length)
            ⟨make_hash (make_line s'), make_line s', now2, false⟩ []⟩ =
        ⟨kvUpsert (1 + P.length)
            ⟨make_hash (make_line s'), make_line s', now2⟩
            (seedOrders make_hash now 1 (P ++ s :: Q)),
          kvUpsert (1 + P.length)
            ⟨make_hash (make_line s'), make_line s', now2, false⟩ []⟩ := by
      apply detectRows_id
      intro pr hpr
      obtain ⟨i, row⟩ := pr
      have hge := mem_enumFrom_ge hpr
      have hmem : (i, row) ∈ enumFrom 1 (P ++ s :: Q) := by
        rw [henum]
        exact List.mem_append_right _ (List.mem_cons_of_mem _ hpr)
      refine hstep false now2 _ i row
        (hlines row (mem_enumFrom_of_mem hmem)) ?_
      show kvLookup i (kvUpsert (1 + P.length) _ _) = _
      rw [kvLookup_upsert_ne (by omega) _ _]
      exact kvLookup_seedOrders make_hash now hmem
    rw [hB]
    show kvUpsert (1 + P.length)
        (PendingRec.mk (make_hash (make_line s')) (make_line s') now2 false) [] = _
    rw [Nat.add_comm 1 P.length]
    rfl

/-- Witness for C1: two rows seeded quietly, then row 2 changes. -/
theorem quiet_start_suppression_witness :
    ((detectPass id true 0 [[some "a"], [some "b"]] OrdersDB.empty).orders.length = 2 ∧
      (detectPass id true 0 [[some "a"], [some "b"]] OrdersDB.empty).pending = []) ∧
    (detectPass id false 5 [[some "a"], [some "c"]]
        (detectPass id true 0 [[some "a"], [some "b"]] OrdersDB.empty)).pending =
      [(2, ⟨"c", "c", 5, false⟩)] :=
  quiet_start_suppression id (fun _ _ h => h) [[some "a"]] [] [some "b"] [some "c"] 0 5
    (by intro row hrow; fin_cases hrow <;> decide) (by decide) (by decide)

/-- C2 counterexample: a first cycle whose snapshot pull fails
(`SourceUnavailable`) does NOT leave the quiet-start flag set — `FIRST_RUN`
is cleared outside the `try`/`except`, so the failed cycle clears it. -/
theorem quiet_start_flag_counterexample :
    (poll_cycle id true 0 2 (fun _ _ => []) [] OrdersDB.empty none none).1 = false := rfl

/-- C2 (amended). The quiet-start flag is cleared unconditionally at the end
of every scheduler cycle — in particular at the end of a first cycle that
failed partway (e.g. the snapshot pull raised) — and it never re-arms. -/
theorem quiet_start_flag_cleared_every_cycle
    (make_hash : String → String) (fr : Bool) (now delay : Int)
    (tr : Nat → Int → List Outcome) (subs : List Int) (db : OrdersDB)
    (fetch : Option (List Row)) (failAt : Option Nat) :
    (poll_cycle make_hash fr now delay tr subs db fetch failAt).1 = false := by
  rcases fetch with _ | rows
  · rfl
  · rcases failAt with _ | k <;> rfl

/-- C7 counterexample: a pass over two rows that raises at row 2 commits
nothing — the RowRecord written for row 1 is absent afterwards (the single
`conn.commit()` sits after the whole loop, so the implicit transaction is
rolled back), while the same pass without the exception records row 1. -/
theorem partial_commit_counterexample :
    kvLookup 1 (poll_cycle id false 0 2 (fun _ _ => [Outcome.ok]) [] OrdersDB.empty
        (some [[some "a"], [some "b"]]) (some 2)).2.1.orders = none ∧
    kvLookup 1 (poll_cycle id false 0 2 (fun _ _ => [Outcome.ok]) [] OrdersDB.empty
        (some [[some "a"], [some "b"]]) none).2.1.orders = some ⟨"a", "a", 0⟩ := by
  decide

/-- C7 (amended). An unexpected exception during a detection pass is caught
at the pass boundary — the cycle returns normally, the scheduler continues
and the flag update still runs — but no row writes of the failing pass are
committed: the committed store is exactly the one from before the pass, and
no dispatch happens that cycle. -/
theorem pass_failure_rolls_back (make_hash : String → String) (fr : Bool)
    (now delay : Int) (tr : Nat → Int → List Outcome) (subs : List Int)
    (db : OrdersDB) (rows : List Row) (k : Nat) :
    poll_cycle make_hash fr now delay tr subs db (some rows) (some k) =
      (false, db, []) := rfl

/-! ### Dispatch helper lemmas -/

theorem flatten_map_singleton {α β : Type} (f : α → β) (l : List α) :
    (l.map fun a => [f a]).flatten = l.map f := by
  induction l with
  | nil => rfl
  | cons a t ih => simp [ih]

theorem send_safe_attempt_exists (chat : Int) (txt : String) {os : List Outcome}
    (h : os ≠ []) :
    ∃ o, Event.attempt chat (truncMsg txt) o ∈ send_safe chat txt os := by
  cases os with
  | nil => exact absurd rfl h
  | cons o rest =>
    cases o with
    | ok => exact ⟨.ok, by simp [send_safe]⟩
    | err => exact ⟨.err, by simp [send_safe]⟩
    | retryAfter t => exact ⟨.retryAfter t, by simp [send_safe]⟩

theorem attempt_mem_fanout (tr : Nat → Int → List Outcome) (subs : List Int)
    (p : Nat × PendingRec) {chat : Int} (hc : chat ∈ subs) (h : tr p.1 chat ≠ []) :
    ∃ o, Event.attempt chat (truncMsg (msgFor p.2)) o ∈
      (subs.map fun c => send_safe c (msgFor p.2) (tr p.1 c)).flatten := by
  obtain ⟨o, ho⟩ := send_safe_attempt_exists chat (msgFor p.2) h
  exact ⟨o, List.mem_flatten.mpr
    ⟨send_safe chat (msgFor p.2) (tr p.1 chat),
      List.mem_map.mpr ⟨chat, hc, rfl⟩, ho⟩⟩

theorem attempt_mem_processEntry (tr : Nat → Int → List Outcome) (subs : List Int)
    (p : Nat × PendingRec) {chat : Int} (hc : chat ∈ subs) (h : tr p.1 chat ≠ []) :
    ∃ o, Event.attempt chat (truncMsg (msgFor p.2)) o ∈ processEntry tr subs p := by
  obtain ⟨o, ho⟩ := attempt_mem_fanout tr subs p hc h
  exact ⟨o, List.mem_append_left _ ho⟩

/-- C5. For every eligible PendingEntry, the dispatch pass emits its
`DELETE` only after a send has been attempted to every subscriber of the
snapshot taken for the pass (the transport assignment `tr` is arbitrary —
in particular every send may fail permanently); the entry is gone from the
queue afterwards, and a permanent failure is never retried within the pass
(`send_safe` stops after a single attempt on a non-retry outcome). -/
theorem entry_deleted_after_fanout (tr : Nat → Int → List Outcome)
    (subs : List Int) (now delay : Int) (st : OrdersDB)
    (hnd : (st.pending.map Prod.fst).Nodup)
    (p : Nat × PendingRec) (hp : p ∈ st.pending)
    (he : eligible now delay p = true) :
    (∃ pre post,
      (notify_subscribers tr subs now delay st).2 =
        pre ++ Event.deleted p.1 :: post ∧
      ∀ chat ∈ subs, tr p.1 chat ≠ [] →
        ∃ o, Event.attempt chat (truncMsg (msgFor p.2)) o ∈ pre) ∧
    kvLookup p.1 (notify_subscribers tr subs now delay st).1.pending = none ∧
    (∀ (chat : Int) (txt : String) (rest : List Outcome),
      send_safe chat txt (Outcome.err :: rest) =
        [Event.attempt chat (truncMsg txt) Outcome.err]) := by
  refine ⟨?_, ?_, fun _ _ _ => rfl⟩
  · have hpe : p ∈ st.pending.filter (eligible now delay) :=
      List.mem_filter.mpr ⟨hp, he⟩
    obtain ⟨l1, l2, helig⟩ := List.append_of_mem hpe
    refine ⟨(l1.map (processEntry tr subs)).flatten ++
      (subs.map fun c => send_safe c (msgFor p.2) (tr p.1 c)).flatten,
      (l2.map (processEntry tr subs)).flatten, ?_, ?_⟩
    · show ((st.pending.filter (eligible now delay)).map
        (processEntry tr subs)).flatten = _
      rw [helig, List.map_append, List.map_cons, List.flatten_append,
        List.flatten_cons]
      rw [processEntry, List.append_assoc, List.append_assoc]
      rfl
    · intro chat hc htr
      obtain ⟨o, ho⟩ := attempt_mem_fanout tr subs p hc htr
      exact ⟨o, List.mem_append_right _ ho⟩
  · obtain ⟨k, v⟩ := p
    exact kvLookup_filter_eq_none hnd hp (by simp [he])

/-- Witness for C5: one eligible entry, two subscribers, the second send
failing permanently. -/
theorem entry_deleted_after_fanout_witness :
    (∃ pre post,
      (notify_subscribers
          (fun _ c => if c = 8 then [Outcome.err] else [Outcome.ok]) [7, 8] 10 2
          ⟨[], [(1, ⟨"a", "a", 0, true⟩)]⟩).2 =
        pre ++ Event.deleted 1 :: post ∧
      ∀ chat ∈ [(7 : Int), 8],
        (fun _ c => if c = 8 then [Outcome.err] else [Outcome.ok]) 1 chat ≠
          ([] : List Outcome) →
        ∃ o, Event.attempt chat
          (truncMsg (msgFor ⟨"a", "a", 0, true⟩)) o ∈ pre) ∧
    kvLookup 1 (notify_subscribers
        (fun _ c => if c = 8 then [Outcome.err] else [Outcome.ok]) [7, 8] 10 2
        ⟨[], [(1, ⟨"a", "a", 0, true⟩)]⟩).1.pending = none ∧
    (∀ (chat : Int) (txt : String) (rest : List Outcome),
      send_safe chat txt (Outcome.err :: rest) =
        [Event.attempt chat (truncMsg txt) Outcome.err]) :=
  entry_deleted_after_fanout
    (fun _ c => if c = 8 then [Outcome.err] else [Outcome.ok]) [7, 8] 10 2
    ⟨[], [(1, ⟨"a", "a", 0, true⟩)]⟩ (by decide)
    (1, ⟨"a", "a", 0, true⟩) (by decide) (by decide)

/-- C6. A rate-limit signal never skips the subscriber: on `RetryAfter T`
the sender sleeps `T` and retries the same (truncated) message exactly once
for that signal, and a rate-limited subscriber never prevents the rest of
the fan-out from being attempted. -/
theorem rate_limit_retry :
    (∀ (chat : Int) (txt : String) (T : Int) (o : Outcome) (rest : List Outcome),
      o.isRetry = false →
      send_safe chat txt (Outcome.retryAfter T :: o :: rest) =
        [Event.attempt chat (truncMsg txt) (Outcome.retryAfter T),
          Event.slept T,
          Event.attempt chat (truncMsg txt) o]) ∧
    (∀ (tr : Nat → Int → List Outcome) (subs : List Int) (p : Nat × PendingRec)
      (chat : Int), chat ∈ subs → tr p.1 chat ≠ [] →
      ∃ o, Event.attempt chat (truncMsg (msgFor p.2)) o ∈
        processEntry tr subs p) := by
  constructor
  · intro chat txt T o rest ho
    cases o with
    | ok => rfl
    | err => rfl
    | retryAfter t => simp [Outcome.isRetry] at ho
  · intro tr subs p chat hc htr
    exact attempt_mem_processEntry tr subs p hc htr

/-- Witness for C6: a retry-after signal followed by a success, inside a
fan-out whose other subscriber is also reached. -/
theorem rate_limit_retry_witness :
    send_safe 7 "m" [Outcome.retryAfter 4, Outcome.ok] =
      [Event.attempt 7 (truncMsg "m") (Outcome.retryAfter 4), Event.slept 4,
        Event.attempt 7 (truncMsg "m") Outcome.ok] ∧
    (∃ o, Event.attempt 9 (truncMsg (msgFor ⟨"a", "a", 0, false⟩)) o ∈
      processEntry (fun _ _ => [Outcome.retryAfter 4, Outcome.ok]) [7, 9]
        (1, ⟨"a", "a", 0, false⟩)) :=
  ⟨rate_limit_retry.1 7 "m" 4 Outcome.ok [] rfl,
    rate_limit_retry.2 (fun _ _ => [Outcome.retryAfter 4, Outcome.ok]) [7, 9]
      (1, ⟨"a", "a", 0, false⟩) 9 (by decide) (by decide)⟩

/-- C9. With an empty subscriber snapshot, a dispatch pass still deletes
every eligible PendingEntry — the trace is exactly the deletions, no send
is attempted, and the flushed changes are gone from the queue for good. -/
theorem empty_subscribers_still_deletes (tr : Nat → Int → List Outcome)
    (now delay : Int) (st : OrdersDB)
    (hnd : (st.pending.map Prod.fst).Nodup) :
    (notify_subscribers tr [] now delay st).2 =
      (st.pending.filter (eligible now delay)).map (fun p => Event.deleted p.1) ∧
    (∀ ev ∈ (notify_subscribers tr [] now delay st).2,
      ∀ (chat : Int) (txt : String) (o : Outcome), ev ≠ Event.attempt chat txt o) ∧
    (∀ p ∈ st.pending, eligible now delay p = true →
      kvLookup p.1 (notify_subscribers tr [] now delay st).1.pending = none) := by
  have hev : (notify_subscribers tr [] now delay st).2 =
      (st.pending.filter (eligible now delay)).map (fun p => Event.deleted p.1) := by
    show ((st.pending.filter (eligible now delay)).map
      (processEntry tr [])).flatten = _
    rw [show processEntry tr [] = fun p : Nat × PendingRec => [Event.deleted p.1]
      from funext fun p => rfl]
    exact flatten_map_singleton _ _
  refine ⟨hev, ?_, ?_⟩
  · intro ev hev' chat txt o
    rw [hev] at hev'
    obtain ⟨q, _, rfl⟩ := List.mem_map.mp hev'
    intro hcontra
    cases hcontra
  · intro p hp hpe
    obtain ⟨k, v⟩ := p
    exact kvLookup_filter_eq_none hnd hp (by simp [hpe])

/-- Witness for C9: two pending entries, one eligible, empty subscribers. -/
theorem empty_subscribers_still_deletes_witness :
    (notify_subscribers (fun _ _ => [Outcome.ok]) [] 10 2
        ⟨[], [(1, ⟨"a", "a", 0, true⟩), (4, ⟨"b", "b", 9, false⟩)]⟩).2 =
      ([((1 : Nat), (⟨"a", "a", 0, true⟩ : PendingRec)),
          (4, ⟨"b", "b", 9, false⟩)].filter (eligible 10 2)).map
        (fun p => Event.deleted p.1) ∧
    (∀ ev ∈ (notify_subscribers (fun _ _ => [Outcome.ok]) [] 10 2
        ⟨[], [(1, ⟨"a", "a", 0, true⟩), (4, ⟨"b", "b", 9, false⟩)]⟩).2,
      ∀ (chat : Int) (txt : String) (o : Outcome), ev ≠ Event.attempt chat txt o) ∧
    (∀ p ∈ [((1 : Nat), (⟨"a", "a", 0, true⟩ : PendingRec)),
        (4, ⟨"b", "b", 9, false⟩)], eligible 10 2 p = true →
      kvLookup p.1 (notify_subscribers (fun _ _ => [Outcome.ok]) [] 10 2
        ⟨[], [(1, ⟨"a", "a", 0, true⟩), (4, ⟨"b", "b", 9, false⟩)]⟩).1.pending =
        none) :=
  empty_subscribers_still_deletes (fun _ _ => [Outcome.ok]) 10 2
    ⟨[], [(1, ⟨"a", "a", 0, true⟩), (4, ⟨"b", "b", 9, false⟩)]⟩ (by decide)

/-- Normalization as the spec words it: take at most the first `MAX_COLS`
cells of the raw row, trim the whitespace of each cell, drop empty cells,
join the survivors with `" | "`. Stated separately from `make_line` (which
is translated from the source's loop) so that the two can be compared. -/
def normalizeSpec (row : Row) : String :=
  String.intercalate " | "
    (((row.take MAX_COLS).map fun x => pyStrip (x.getD "")).filter fun s => s ≠ "")

/-- C8. Row normalization: the source's `make_line` agrees with the spec's
take-trim-drop-join formula on every raw row; the spec's example
`["  a ", "", " b", null]` normalizes to `"a | b"`; and a row that
normalizes to the empty string is skipped entirely by detection — the
state is untouched, so no RowRecord is created and no fingerprint stored. -/
theorem row_normalization :
    (∀ row : Row, make_line row = normalizeSpec row) ∧
    make_line [some "  a ", some "", some " b", none] = "a | b" ∧
    (∀ (make_hash : String → String) (fr : Bool) (now : Int) (idx : Nat)
      (row : Row) (st : OrdersDB), make_line row = "" →
      detectRow make_hash fr now idx row st = st) := by
  refine ⟨?_, by decide, ?_⟩
  · intro row
    rw [make_line, make_line_step_acc, List.nil_append]
    rfl
  · intro make_hash fr now idx row st h
    exact detectRow_eq_self_of_line_empty make_hash fr now idx st h

/-- Witness for C8: the agreement on a concrete row, the spec example, and
an all-blank row leaving a non-trivial state untouched. -/
theorem row_normalization_witness :
    make_line [some " x ", none, some "y"] = normalizeSpec [some " x ", none, some "y"] ∧
    make_line [some "  a ", some "", some " b", none] = "a | b" ∧
    detectRow id false 7 3 [some "   ", some ""]
        ⟨[(1, ⟨"a", "a", 0⟩)], []⟩ = ⟨[(1, ⟨"a", "a", 0⟩)], []⟩ :=
  ⟨row_normalization.1 [some " x ", none, some "y"],
    row_normalization.2.1,
    row_normalization.2.2 id false 7 3 [some "   ", some ""]
      ⟨[(1, ⟨"a", "a", 0⟩)], []⟩ (by decide)⟩

/-- C4. Debounce coalescing: replacing the PendingEntry of a position whose
content changed again resets `firstSeenAt` to the newest detection time; in
the scenario of a row edited at `t = 0` and again at `t = 1` with
`NOTIFY_DELAY = 2`, a dispatch pass before `t = 3` flushes nothing and
changes nothing, a dispatch pass at any `t ≥ 3` flushes exactly one
notification carrying the `t = 1` content, and afterwards the queue is
empty so nothing further is flushed. -/
theorem debounce_coalescing (make_hash : String → String)
    (hinj : Function.Injective make_hash)
    (r0 r1 r2 : Row) (c : Int)
    (h0 : make_line r0 ≠ "") (h1 : make_line r1 ≠ "") (h2 : make_line r2 ≠ "")
    (d01 : make_line r0 ≠ make_line r1) (d12 : make_line r1 ≠ make_line r2) :
    (∀ (st : OrdersDB) (idx : Nat) (row : Row) (fr : Bool) (now : Int)
      (pe : PendingRec) (r : OrderRec),
      kvLookup idx st.pending = some pe →
      kvLookup idx st.orders = some r →
      make_line row ≠ "" →
      r.hash ≠ make_hash (make_line row) →
      kvLookup idx (detectRow make_hash fr now idx row st).pending =
        some ⟨make_hash (make_line row), make_line row, now, false⟩) ∧
    (∀ n : Int, n < 3 →
      notify_subscribers (fun _ _ => [Outcome.ok]) [c] n 2
        (detectPass make_hash false 1 [r2] (detectPass make_hash false 0 [r1]
          (detectPass make_hash true (-1) [r0] OrdersDB.empty))) =
        (detectPass make_hash false 1 [r2] (detectPass make_hash false 0 [r1]
          (detectPass make_hash true (-1) [r0] OrdersDB.empty)), [])) ∧
    (∀ n : Int, 3 ≤ n →
      notify_subscribers (fun _ _ => [Outcome.ok]) [c] n 2
        (detectPass make_hash false 1 [r2] (detectPass make_hash false 0 [r1]
          (detectPass make_hash true (-1) [r0] OrdersDB.empty))) =
        (⟨[(1, ⟨make_hash (make_line r2), make_line r2, 1⟩)], []⟩,
          [Event.attempt c (truncMsg ("♻ Обновлён заказ:\n" ++ make_line r2))
            Outcome.ok,
          Event.deleted 1])) ∧
    (∀ (tr2 : Nat → Int → List Outcome) (subs2 : List Int) (n2 d2 : Int)
      (stF : OrdersDB), stF.pending = [] →
      (notify_subscribers tr2 subs2 n2 d2 stF).2 = []) := by
  have hl1ne : (OrderRec.mk (make_hash (make_line r0)) (make_line r0) (-1)).hash ≠
      make_hash (make_line r1) := fun h => d01 (hinj h)
  have hl2ne : (OrderRec.mk (make_hash (make_line r1)) (make_line r1) 0).hash ≠
      make_hash (make_line r2) := fun h => d12 (hinj h)
  have hst0 : detectPass make_hash true (-1) [r0] OrdersDB.empty =
      ⟨[(1, ⟨make_hash (make_line r0), make_line r0, -1⟩)], []⟩ := by
    show detectRow make_hash true (-1) 1 r0 OrdersDB.empty = _
    rw [@detectRow_new_quiet make_hash (-1) 1 r0 OrdersDB.empty h0 rfl]
    rfl
  have hst1 : detectPass make_hash false 0 [r1]
      ⟨[(1, ⟨make_hash (make_line r0), make_line r0, -1⟩)], []⟩ =
      ⟨[(1, ⟨make_hash (make_line r1), make_line r1, 0⟩)],
        [(1, ⟨make_hash (make_line r1), make_line r1, 0, false⟩)]⟩ := by
    show detectRow make_hash false 0 1 r1
      ⟨[(1, ⟨make_hash (make_line r0), make_line r0, -1⟩)], []⟩ = _
    rw [@detectRow_changed make_hash false 0 1 r1
      ⟨[(1, ⟨make_hash (make_line r0), make_line r0, -1⟩)], []⟩
      ⟨make_hash (make_line r0), make_line r0, -1⟩ h1 rfl hl1ne]
    rfl
  have hst2 : detectPass make_hash false 1 [r2]
      ⟨[(1, ⟨make_hash (make_line r1), make_line r1, 0⟩)],
        [(1, ⟨make_hash (make_line r1), make_line r1, 0, false⟩)]⟩ =
      ⟨[(1, ⟨make_hash (make_line r2), make_line r2, 1⟩)],
        [(1, ⟨make_hash (make_line r2), make_line r2, 1, false⟩)]⟩ := by
    show detectRow make_hash false 1 1 r2
      ⟨[(1, ⟨make_hash (make_line r1), make_line r1, 0⟩)],
        [(1, ⟨make_hash (make_line r1), make_line r1, 0, false⟩)]⟩ = _
    rw [@detectRow_changed make_hash false 1 1 r2
      ⟨[(1, ⟨make_hash (make_line r1), make_line r1, 0⟩)],
        [(1, ⟨make_hash (make_line r1), make_line r1, 0, false⟩)]⟩
      ⟨make_hash (make_line r1), make_line r1, 0⟩ h2 rfl hl2ne]
    rfl
  refine ⟨?_, ?_, ?_, ?_⟩
  · intro st idx row fr now pe r hpe hlk hrow hne2
    rw [detectRow_changed make_hash fr now idx hrow hlk hne2]
    exact kvLookup_upsert_self idx _ st.pending
  · intro n hn
    rw [hst0, hst1, hst2]
    have hsel : eligible n 2
        (1, ⟨make_hash (make_line r2), make_line r2, 1, false⟩) = false := by
      simp only [eligible]
      simp
      omega
    simp [notify_subscribers, hsel]
  · intro n hn
    rw [hst0, hst1, hst2]
    have hsel : eligible n 2
        (1, ⟨make_hash (make_line r2), make_line r2, 1, false⟩) = true := by
      simp only [eligible]
      simp
      omega
    simp [notify_subscribers, hsel, processEntry, send_safe, msgFor]
  · intro tr2 subs2 n2 d2 stF hF
    simp [notify_subscribers, hF]

/-- Witness for C4: a single-cell row edited `a → b → c`, one subscriber,
flushes checked at `t = 2` (nothing) and `t = 3` (one notification). -/
theorem debounce_coalescing_witness :
    kvLookup 1 (detectRow id false 9 1 [some "d"]
        ⟨[(1, ⟨"b", "b", 0⟩)], [(1, ⟨"b", "b", 0, false⟩)]⟩).pending =
      some ⟨"d", "d", 9, false⟩ ∧
    notify_subscribers (fun _ _ => [Outcome.ok]) [7] 2 2
        (detectPass id false 1 [[some "c"]] (detectPass id false 0 [[some "b"]]
          (detectPass id true (-1) [[some "a"]] OrdersDB.empty))) =
      (detectPass id false 1 [[some "c"]] (detectPass id false 0 [[some "b"]]
        (detectPass id true (-1) [[some "a"]] OrdersDB.empty)), []) ∧
    notify_subscribers (fun _ _ => [Outcome.ok]) [7] 3 2
        (detectPass id false 1 [[some "c"]] (detectPass id false 0 [[some "b"]]
          (detectPass id true (-1) [[some "a"]] OrdersDB.empty))) =
      (⟨[(1, ⟨"c", "c", 1⟩)], []⟩,
        [Event.attempt 7 (truncMsg ("♻ Обновлён заказ:\n" ++ "c")) Outcome.ok,
          Event.deleted 1]) ∧
    (notify_subscribers (fun _ _ => []) [] 0 0 OrdersDB.empty).2 = [] := by
  have T := debounce_coalescing id (fun _ _ h => h)
    [some "a"] [some "b"] [some "c"] 7
    (by decide) (by decide) (by decide) (by decide) (by decide)
  exact ⟨T.1 ⟨[(1, ⟨"b", "b", 0⟩)], [(1, ⟨"b", "b", 0, false⟩)]⟩ 1 [some "d"]
      false 9 ⟨"b", "b", 0, false⟩ ⟨"b", "b", 0⟩ (by decide) (by decide)
      (by decide) (by decide),
    T.2.1 2 (by decide), T.2.2.1 3 (by decide),
    T.2.2.2 (fun _ _ => []) [] 0 0 OrdersDB.empty rfl⟩

theorem upd_msg_ne_new_msg (a b : String) :
    ("♻ Обновлён заказ:\n" ++ a) ≠ ("🆕 Новый заказ:\n" ++ b) := by
  intro h
  have hd := congrArg String.data h
  rw [String.data_append, String.data_append] at hd
  have h1 := congrArg List.head? hd
  rw [List.head?_append_of_ne_nil _ (by decide),
    List.head?_append_of_ne_nil _ (by decide)] at h1
  exact absurd h1 (by decide)

/-- C10. A row first observed as new carries a PendingEntry of kind New;
if its content changes again before the entry is flushed, the replacement
entry has kind Updated, the single flushed notification carries the
Updated prefix, and an Updated-prefixed message can never coincide with a
New-prefixed one. -/
theorem new_then_edit_flushes_updated (make_hash : String → String)
    (hinj : Function.Injective make_hash) (r1 r2 : Row) (c : Int)
    (h1 : make_line r1 ≠ "") (h2 : make_line r2 ≠ "")
    (d12 : make_line r1 ≠ make_line r2) :
    (∀ (st : OrdersDB) (idx : Nat) (row : Row) (fr : Bool) (now : Int)
      (pe : PendingRec) (r : OrderRec),
      kvLookup idx st.pending = some pe → pe.is_new = true →
      kvLookup idx st.orders = some r → make_line row ≠ "" →
      r.hash ≠ make_hash (make_line row) →
      kvLookup idx (detectRow make_hash fr now idx row st).pending =
        some ⟨make_hash (make_line row), make_line row, now, false⟩) ∧
    (kvLookup 1 (detectPass make_hash false 0 [r1] OrdersDB.empty).pending).map
        PendingRec.is_new = some true ∧
    kvLookup 1 (detectPass make_hash false 1 [r2]
        (detectPass make_hash false 0 [r1] OrdersDB.empty)).pending =
      some ⟨make_hash (make_line r2), make_line r2, 1, false⟩ ∧
    (∀ n : Int, 3 ≤ n →
      notify_subscribers (fun _ _ => [Outcome.ok]) [c] n 2
        (detectPass make_hash false 1 [r2]
          (detectPass make_hash false 0 [r1] OrdersDB.empty)) =
        (⟨[(1, ⟨make_hash (make_line r2), make_line r2, 1⟩)], []⟩,
          [Event.attempt c
              (truncMsg ("♻ Обновлён заказ:\n" ++ make_line r2)) Outcome.ok,
            Event.deleted 1])) ∧
    (∀ a b : String,
      ("♻ Обновлён заказ:\n" ++ a) ≠ ("🆕 Новый заказ:\n" ++ b)) := by
  have hl2ne : (OrderRec.mk (make_hash (make_line r1)) (make_line r1) 0).hash ≠
      make_hash (make_line r2) := fun h => d12 (hinj h)
  have hst0 : detectPass make_hash false 0 [r1] OrdersDB.empty =
      ⟨[(1, ⟨make_hash (make_line r1), make_line r1, 0⟩)],
        [(1, ⟨make_hash (make_line r1), make_line r1, 0, true⟩)]⟩ := by
    show detectRow make_hash false 0 1 r1 OrdersDB.empty = _
    rw [@detectRow_new_live make_hash 0 1 r1 OrdersDB.empty h1 rfl]
    rfl
  have hst1 : detectPass make_hash false 1 [r2]
      ⟨[(1, ⟨make_hash (make_line r1), make_line r1, 0⟩)],
        [(1, ⟨make_hash (make_line r1), make_line r1, 0, true⟩)]⟩ =
      ⟨[(1, ⟨make_hash (make_line r2), make_line r2, 1⟩)],
        [(1, ⟨make_hash (make_line r2), make_line r2, 1, false⟩)]⟩ := by
    show detectRow make_hash false 1 1 r2
      ⟨[(1, ⟨make_hash (make_line r1), make_line r1, 0⟩)],
        [(1, ⟨make_hash (make_line r1), make_line r1, 0, true⟩)]⟩ = _
    rw [@detectRow_changed make_hash false 1 1 r2
      ⟨[(1, ⟨make_hash (make_line r1), make_line r1, 0⟩)],
        [(1, ⟨make_hash (make_line r1), make_line r1, 0, true⟩)]⟩
      ⟨make_hash (make_line r1), make_line r1, 0⟩ h2 rfl hl2ne]
    rfl
  refine ⟨?_, ?_, ?_, ?_, upd_msg_ne_new_msg⟩
  · intro st idx row fr now pe r hpe hnew hlk hrow hne2
    rw [detectRow_changed make_hash fr now idx hrow hlk hne2]
    exact kvLookup_upsert_self idx _ st.pending
  · rw [hst0]
    rfl
  · rw [hst0, hst1]
    rfl
  · intro n hn
    rw [hst0, hst1]
    have hsel : eligible n 2
        (1, ⟨make_hash (make_line r2), make_line r2, 1, false⟩) = true := by
      simp only [eligible]
      simp
      omega
    simp [notify_subscribers, hsel, processEntry, send_safe, msgFor]

/-- Witness for C10: row appears (New) at `t = 0`, edited at `t = 1`,
flushed at `t = 3` with the Updated prefix. -/
theorem new_then_edit_flushes_updated_witness :
    kvLookup 1 (detectRow id false 9 1 [some "d"]
        ⟨[(1, ⟨"b", "b", 0⟩)], [(1, ⟨"b", "b", 0, true⟩)]⟩).pending =
      some ⟨"d", "d", 9, false⟩ ∧
    (kvLookup 1 (detectPass id false 0 [[some "b"]] OrdersDB.empty).pending).map
        PendingRec.is_new = some true ∧
    kvLookup 1 (detectPass id false 1 [[some "c"]]
        (detectPass id false 0 [[some "b"]] OrdersDB.empty)).pending =
      some ⟨"c", "c", 1, false⟩ ∧
    notify_subscribers (fun _ _ => [Outcome.ok]) [7] 3 2
        (detectPass id false 1 [[some "c"]]
          (detectPass id false 0 [[some "b"]] OrdersDB.empty)) =
      (⟨[(1, ⟨"c", "c", 1⟩)], []⟩,
        [Event.attempt 7 (truncMsg ("♻ Обновлён заказ:\n" ++ "c")) Outcome.ok,
          Event.deleted 1]) ∧
    ("♻ Обновлён заказ:\n" ++ "x") ≠ ("🆕 Новый заказ:\n" ++ "y") := by
  have T := new_then_edit_flushes_updated id (fun _ _ h => h)
    [some "b"] [some "c"] 7 (by decide) (by decide) (by decide)
  exact ⟨T.1 ⟨[(1, ⟨"b", "b", 0⟩)], [(1, ⟨"b", "b", 0, true⟩)]⟩ 1 [some "d"]
      false 9 ⟨"b", "b", 0, true⟩ ⟨"b", "b", 0⟩ (by decide) rfl (by decide)
      (by decide) (by decide),
    T.2.1, T.2.2.1, T.2.2.2.1 3 (by decide), T.2.2.2.2 "x" "y"⟩

end Bot
